import Mathlib

/-!
Verification of the RGrep regular-expression core: the pattern parser
(`src/parser.rs`) and the matching engine (`src/engine.rs`).

Modelling conventions:
* Rust `Vec<char>` / `&[char]` become `List Char`, `String` becomes `List Char`
  where it is only ever consumed character by character.
* The parser's `&mut Vec<RE>` accumulator (every code path only ever pushes)
  is rendered by returning the list of nodes appended by the call; the
  caller's accumulator is recovered by appending.
* Fallible Rust functions returning `anyhow::Result` become `Except String`.
  A Rust panic (`unwrap` / `expect` / out-of-bounds index) is modelled as the
  `none` value of an outer `Option` layer.
* The engine's recursion is not structurally decreasing (a back-reference
  splice lengthens the pattern, and one `ZeroOrMore` branch recurses on
  unchanged arguments), so every engine function takes a fuel argument that
  drops by one on each nested call; `none` means the computation did not
  finish within the given fuel.  A result `some r` is fuel-independent once
  reached, and nontermination shows up as `none` for every fuel.
* `u32` arithmetic is modelled on `Nat` with explicit wrapping modulo `2^32`
  where the code subtracts (release-profile two's-complement semantics).
-/

/-- The pattern-node AST, mirroring `enum RE` in `src/parser.rs`. -/
inductive RE where
  | Character (character : Char)
  | CClass (members : List RE)
  | NCClass (members : List RE)
  | DigitClass
  | AlphanumericClass
  | Wildcard
  | StartAnchor
  | EndAnchor
  | OneOrMore (target : Option RE)
  | ZeroOrMore (target : Option RE)
  | ZeroOrOne (target : Option RE)
  | Alternation (members : List (List RE))
  | BackReference (target : Nat)

/-- Rust's `slice::splitn(2, |c| *c == sep)`: the part before the first
separator, and (when the separator occurs) the part after it. -/
def splitFirst (sep : Char) : List Char → List Char × Option (List Char)
  | [] => ([], none)
  | c :: rest =>
    if c = sep then ([], some rest)
    else
      let r := splitFirst sep rest
      (c :: r.1, r.2)

/-- Rust's `slice::split(|c| *c == '|')`: all separator-delimited segments
(always at least one, possibly empty). -/
def splitBar : List Char → List (List Char)
  | [] => [[]]
  | c :: rest =>
    if c = '|' then [] :: splitBar rest
    else
      match splitBar rest with
      | [] => [[]]
      | m :: ms => (c :: m) :: ms

theorem splitFirst_fst_length (sep : Char) (l : List Char) :
    (splitFirst sep l).1.length ≤ l.length := by
  induction l with
  | nil => simp [splitFirst]
  | cons c rest ih =>
    simp only [splitFirst]
    split
    · simp
    · simp only [List.length_cons]
      omega

theorem splitFirst_snd_length (sep : Char) (l : List Char) (a : List Char)
    (h : (splitFirst sep l).2 = some a) : a.length < l.length := by
  induction l with
  | nil => simp [splitFirst] at h
  | cons c rest ih =>
    simp only [splitFirst] at h
    split at h
    · simp only [Option.some.injEq] at h
      subst h
      simp
    · have := ih h
      simp only [List.length_cons]
      omega

theorem splitFirst_getD_length (sep : Char) (l : List Char) :
    ((splitFirst sep l).2.getD []).length ≤ l.length := by
  cases h : (splitFirst sep l).2 with
  | none => simp
  | some a =>
    simp only [Option.getD_some]
    exact Nat.le_of_lt (splitFirst_snd_length sep l a h)

/-- Combined size of a list of segments, used as the termination measure for
parsing the alternatives of a group. -/
def sumLens (ms : List (List Char)) : Nat := (ms.map (fun m => m.length + 1)).sum

theorem sumLens_cons (m : List Char) (ms : List (List Char)) :
    sumLens (m :: ms) = m.length + 1 + sumLens ms := by
  simp [sumLens]

theorem splitBar_ne_nil (l : List Char) : splitBar l ≠ [] := by
  cases l with
  | nil => simp [splitBar]
  | cons c rest =>
    simp only [splitBar]
    split
    · simp
    · split <;> simp

theorem sumLens_splitBar (l : List Char) : sumLens (splitBar l) = l.length + 1 := by
  induction l with
  | nil => simp [splitBar, sumLens]
  | cons c rest ih =>
    simp only [splitBar]
    split
    · rw [sumLens_cons]
      simp only [List.length_nil, List.length_cons]
      omega
    · rcases hsb : splitBar rest with _ | ⟨m, ms⟩
      · exact absurd hsb (splitBar_ne_nil rest)
      · rw [hsb, sumLens_cons] at ih
        rw [sumLens_cons]
        simp only [List.length_cons] at *
        omega

theorem sumLens_mem_lt (ms : List (List Char)) (m : List Char) (h : m ∈ ms) :
    m.length < sumLens ms := by
  induction ms with
  | nil => cases h
  | cons x xs ih =>
    rw [sumLens_cons]
    rcases List.mem_cons.mp h with h | h
    · subst h; omega
    · have := ih h; omega

/-- The character-class body: `src/parser.rs` skips a leading `^` (negation
marker) before scanning for `]`. -/
def classBody (rest : List Char) : List Char :=
  if rest.head? = some '^' then rest.tail else rest

theorem classBody_length (rest : List Char) : (classBody rest).length ≤ rest.length := by
  unfold classBody
  split
  · cases rest <;> simp
  · exact Nat.le_refl _

/-- Push one node and continue with the result of parsing the remaining
characters (`regex.push(..); _parse(&characters[k..], regex)` in Rust). -/
def consNode (x : RE) : Option (Except String (List RE)) → Option (Except String (List RE))
  | none => none
  | some (.error e) => some (.error e)
  | some (.ok nodes) => some (.ok (x :: nodes))

mutual

/-- Rust `fn _parse` of `src/parser.rs`, returning the nodes this call appends to
the accumulator.  `none` models a panic: the only panic inside `_parse` is the
`.expect("unable to parse alternation member")` on a group member whose parse
fails (via `parseMembers`). -/
def _parse : List Char → Option (Except String (List RE))
  | [] => some (.ok [])
  | '(' :: rest =>
    match parseMembers (splitBar (splitFirst ')' rest).1) with
    | none => none
    | some ms =>
      match _parse ((splitFirst ')' rest).2.getD []) with
      | none => none
      | some (.error e) => some (.error e)
      | some (.ok nodes) => some (.ok (RE.Alternation ms :: nodes))
  | '\\' :: rest =>
    match rest with
    | [] => some (.error "Missing special character class specifier")
    | 'd' :: r => consNode RE.DigitClass (_parse r)
    | 'w' :: r => consNode RE.AlphanumericClass (_parse r)
    | c :: r =>
      if c.isDigit then consNode (RE.BackReference (c.toNat - '0'.toNat)) (_parse r)
      else some (.error ("Unsupported special character class " ++ String.mk [c]))
  | '[' :: rest =>
    match _parse (splitFirst ']' (classBody rest)).1 with
    | none => none
    | some (.error e) => some (.error e)
    | some (.ok clsMembers) =>
      match _parse ((splitFirst ']' (classBody rest)).2.getD []) with
      | none => none
      | some (.error e) => some (.error e)
      | some (.ok nodes) =>
        some (.ok ((if rest.head? = some '^' then RE.NCClass clsMembers
                    else RE.CClass clsMembers) :: nodes))
  | '$' :: rest =>
    if rest.isEmpty then some (.ok [RE.EndAnchor])
    else some (.error "Invalid pattern, `$` should only appear as the last character")
  | '+' :: rest => consNode (RE.OneOrMore none) (_parse rest)
  | '*' :: rest => consNode (RE.ZeroOrMore none) (_parse rest)
  | '?' :: rest => consNode (RE.ZeroOrOne none) (_parse rest)
  | '.' :: rest => consNode RE.Wildcard (_parse rest)
  | c :: rest => consNode (RE.Character c) (_parse rest)
  termination_by cs => 2 * cs.length + 1
  decreasing_by
  all_goals simp only [List.length_cons]
  all_goals
    first
    | omega
    | (have h1 := sumLens_splitBar (splitFirst ')' rest).1
       have h2 := splitFirst_fst_length ')' rest
       omega)
    | (have h := splitFirst_getD_length ')' rest
       omega)
    | (have h := splitFirst_fst_length ']' (classBody rest)
       have h2 := classBody_length rest
       omega)
    | (have h := splitFirst_getD_length ']' (classBody rest)
       have h2 := classBody_length rest
       omega)

/-- The `alternation_parts.map(|member| _parse(member, ..).expect(..))` loop of
the `Some('(')` arm: parse each alternative from a fresh accumulator; a member
whose parse errors (or panics) makes the whole group parse panic (`none`). -/
def parseMembers : List (List Char) → Option (List (List RE))
  | [] => some []
  | m :: ms =>
    match _parse m with
    | some (.ok nodes) =>
      match parseMembers ms with
      | some rest => some (nodes :: rest)
      | none => none
    | _ => none
  termination_by ms => 2 * sumLens ms
  decreasing_by
  all_goals simp only [sumLens_cons]
  all_goals omega

end

/-- Quantifier detection used by `_post_process`: Rust's
`RE::OneOrMore { target: _ } | RE::ZeroOrMore { target: _ } | RE::ZeroOrOne { target: _ }`
patterns match any target, bound or not. -/
def isQuant : RE → Bool
  | .OneOrMore _ | .ZeroOrMore _ | .ZeroOrOne _ => true
  | _ => false

/-- The quantifier-binding step of `_post_process`: when the lookahead node is
a quantifier placeholder, rebuild it with the current node as its target. -/
def quantRebind : Option RE → RE → Option RE
  | some (.OneOrMore _), x => some (.OneOrMore (some x))
  | some (.ZeroOrMore _), x => some (.ZeroOrMore (some x))
  | some (.ZeroOrOne _), x => some (.ZeroOrOne (some x))
  | _, _ => none

mutual

/-- Rust `fn _post_process` of `src/parser.rs`: the single left-to-right pass with
one-node lookahead.  The Rust loop decides the contribution of index `i` from
`regex[i]` and `regex[i+1]`; here the list head plays `regex[i]` and
`rest.head?` plays `regex[i+1]`.  Branch order mirrors the source: an
`Alternation` is recursed into first (even when followed by a quantifier), then
a quantifier lookahead binds, then a bare quantifier is skipped, then character
classes are validated against quantifier members. -/
def _post_process : List RE → Except String (List RE)
  | [] => .ok []
  | RE.Alternation members :: rest => do
    let ms ← ppMembers members
    let t ← _post_process rest
    .ok (RE.Alternation ms :: t)
  | x :: rest =>
    match quantRebind rest.head? x with
    | some q => do
      let t ← _post_process rest
      .ok (q :: t)
    | none =>
      if isQuant x then _post_process rest
      else
        match x with
        | RE.CClass ms =>
          if ms.any isQuant then .error "character class cannot contain `+`"
          else do
            let t ← _post_process rest
            .ok (RE.CClass ms :: t)
        | RE.NCClass ms =>
          if ms.any isQuant then .error "character class cannot contain `+`"
          else do
            let t ← _post_process rest
            .ok (RE.NCClass ms :: t)
        | _ => do
          let t ← _post_process rest
          .ok (x :: t)

/-- The `for member in members { _post_process(member)? }` loop of the
`Alternation` arm of `_post_process`. -/
def ppMembers : List (List RE) → Except String (List (List RE))
  | [] => .ok []
  | m :: ms => do
    let m' ← _post_process m
    let ms' ← ppMembers ms
    .ok (m' :: ms')

end

/-- Rust `fn parse` of `src/parser.rs`.  `none` models the out-of-bounds panic of
`characters[0]` on an empty pattern string, and any panic propagated from
`_parse`. -/
def parse (cs : List Char) : Option (Except String (List RE)) :=
  match cs with
  | [] => none
  | c :: rest =>
    match _parse (if c = '^' then rest else c :: rest) with
    | none => none
    | some (.error e) => some (.error e)
    | some (.ok nodes) =>
      match _post_process ((if c = '^' then [RE.StartAnchor] else []) ++ nodes) with
      | .error e => some (.error e)
      | .ok out => some (.ok out)

/-- Rust `fn _match_character` of `src/engine.rs`. -/
def _match_character (input_character : Char) (re_char : Char) : Bool :=
  input_character == re_char

/-- Rust `fn _match_digit_class` of `src/engine.rs` (`is_ascii_digit`). -/
def _match_digit_class (input_character : Char) : Bool :=
  input_character.isDigit

/-- Rust `fn _match_alphanumeric_class` of `src/engine.rs` (`is_ascii_alphanumeric`). -/
def _match_alphanumeric_class (input_character : Char) : Bool :=
  input_character.isAlphanum

mutual

/-- Rust `fn _match_pattern` of `src/engine.rs`.  The first argument is fuel (call
depth): `none` means the evaluation did not complete within `fuel` nested
calls.  Captures (`back_references`) are lists of characters; the back-
reference index `(*target - 1) as usize` is `u32` wrapping subtraction,
modelled as `(target + (2^32 - 1)) % 2^32`. -/
def _match_pattern : Nat → List Char → List RE → Nat → List (List Char) →
    Option (Except String Nat)
  | 0, _, _, _, _ => none
  | fuel + 1, input_characters, pattern, current_match_len, back_references =>
    match pattern with
    | [] => some (.ok current_match_len)
    | p :: ps =>
      match input_characters with
      | [] =>
        match p with
        | .EndAnchor => some (.ok current_match_len)
        | _ => some (.ok 0)
      | c :: cs =>
        match p with
        | .BackReference target =>
          match back_references[(target + (2 ^ 32 - 1)) % 2 ^ 32]? with
          | some matched_string =>
            _match_pattern fuel input_characters
              ((matched_string.map RE.Character) ++ ps) current_match_len back_references
          | none => some (.error "Back reference does not exist")
        | .Alternation members =>
          _alternation_loop fuel input_characters ps current_match_len back_references members
        | .OneOrMore (some atom) =>
          match match_single_character fuel c atom with
          | none => none
          | some (.ok true) =>
            match _one_or_more_run fuel atom cs with
            | none => none
            | some k =>
              _match_pattern fuel (input_characters.drop (1 + k)) ps
                (current_match_len + (1 + k)) back_references
          | some _ => some (.ok 0)
        | .ZeroOrMore (some atom) =>
          match _match_pattern fuel input_characters ps 0 back_references with
          | none => none
          | some (.ok match_len) =>
            if match_len > 0 then some (.ok (current_match_len + match_len))
            else
              match match_single_character fuel c atom with
              | none => none
              | some (.ok true) =>
                _match_pattern fuel input_characters (p :: ps)
                  (current_match_len + 1) back_references
              | some _ => some (.ok 0)
          | some (.error _) => some (.ok 0)
        | .ZeroOrOne (some atom) =>
          match _match_pattern fuel input_characters ps 0 back_references with
          | none => none
          | some (.ok match_len) =>
            if match_len > 0 then some (.ok (current_match_len + match_len))
            else
              match match_single_character fuel c atom with
              | none => none
              | some (.ok true) =>
                _match_pattern fuel cs ps (current_match_len + 1) back_references
              | some _ => some (.ok 0)
          | some (.error _) => some (.ok 0)
        | re =>
          match match_single_character fuel c re with
          | none => none
          | some (.ok true) =>
            _match_pattern fuel cs ps (current_match_len + 1) back_references
          | some _ => some (.ok 0)

/-- The `for member in members` loop of the `RE::Alternation` arm of
`_match_pattern`: the first member matching a nonzero-length prefix is
captured (appended to `back_references`) and matching continues after it; a
member that errors or matches length 0 is skipped; an exhausted loop yields
`Ok(0)`. -/
def _alternation_loop : Nat → List Char → List RE → Nat → List (List Char) →
    List (List RE) → Option (Except String Nat)
  | 0, _, _, _, _, _ => none
  | fuel + 1, input_characters, ps, current_match_len, back_references, members =>
    match members with
    | [] => some (.ok 0)
    | m :: ms =>
      match _match_pattern fuel input_characters m 0 back_references with
      | none => none
      | some (.ok match_len) =>
        if match_len > 0 then
          _match_pattern fuel (input_characters.drop match_len) ps
            (current_match_len + match_len)
            (back_references ++ [input_characters.take match_len])
        else _alternation_loop fuel input_characters ps current_match_len back_references ms
      | some (.error _) =>
        _alternation_loop fuel input_characters ps current_match_len back_references ms

/-- The greedy counting loop of the `RE::OneOrMore` arm: how many further
characters (after the first, already accepted one) are consumed.  It stops at
the first `Ok(false)`; both `Ok(true)` and `Err(_)` advance the counter, as in
the source's `_ => counter += 1`. -/
def _one_or_more_run : Nat → RE → List Char → Option Nat
  | 0, _, _ => none
  | fuel + 1, atom, rest =>
    match rest with
    | [] => some 0
    | c :: cs =>
      match match_single_character fuel c atom with
      | none => none
      | some (.ok false) => some 0
      | some _ =>
        match _one_or_more_run fuel atom cs with
        | none => none
        | some k => some (k + 1)

/-- Rust `fn match_single_character` of `src/engine.rs`. -/
def match_single_character : Nat → Char → RE → Option (Except String Bool)
  | 0, _, _ => none
  | fuel + 1, c, re_element =>
    match re_element with
    | .Wildcard => some (.ok true)
    | .Character character => some (.ok (_match_character c character))
    | .DigitClass => some (.ok (_match_digit_class c))
    | .AlphanumericClass => some (.ok (_match_alphanumeric_class c))
    | .CClass members => _match_character_class fuel c members
    | .NCClass members =>
      match _match_character_class fuel c members with
      | none => none
      | some (.ok b) => some (.ok (!b))
      | some (.error e) => some (.error e)
    | _ => some (.ok false)

/-- Rust `fn _match_character_class` of `src/engine.rs`: each member is tried via a
one-character `_match_pattern` run; `?` propagates a member's error. -/
def _match_character_class : Nat → Char → List RE → Option (Except String Bool)
  | 0, _, _ => none
  | fuel + 1, input_character, character_class =>
    match character_class with
    | [] => some (.ok false)
    | m :: ms =>
      match _match_pattern fuel [input_character] [m] 0 [] with
      | none => none
      | some (.ok n) =>
        if n = 1 then some (.ok true)
        else _match_character_class fuel input_character ms
      | some (.error e) => some (.error e)

end

/-- Result of the top-level engine driver: `panic` models the out-of-bounds
`pattern[0]` on an empty pattern, `fuelOut` a recursive attempt that ran out
of fuel, `res` the value the Rust function returns. -/
inductive DriverResult where
  | panic
  | fuelOut
  | res (r : Except String Nat)

/-- The unanchored scanning loop of `fn match_pattern`: try the current suffix
(`input_characters[counter..]`); on a nonzero match return it; otherwise (zero
or error) advance by one, stopping with `Ok(0)` when
`input_characters.get(counter + 1) == None`, i.e. when at most one character
remains in the suffix. -/
def match_pattern_loop (fuel : Nat) (pattern : List RE) : List Char → DriverResult
  | [] =>
    match _match_pattern fuel [] pattern 0 [] with
    | none => .fuelOut
    | some (.ok match_len) => if match_len > 0 then .res (.ok match_len) else .res (.ok 0)
    | some (.error _) => .res (.ok 0)
  | [c] =>
    match _match_pattern fuel [c] pattern 0 [] with
    | none => .fuelOut
    | some (.ok match_len) => if match_len > 0 then .res (.ok match_len) else .res (.ok 0)
    | some (.error _) => .res (.ok 0)
  | c :: rs =>
    match _match_pattern fuel (c :: rs) pattern 0 [] with
    | none => .fuelOut
    | some (.ok match_len) => if match_len > 0 then .res (.ok match_len) else match_pattern_loop fuel pattern rs
    | some (.error _) => match_pattern_loop fuel pattern rs

/-- Rust `fn match_pattern` of `src/engine.rs`: anchored attempt when the pattern
starts with `StartAnchor`, otherwise the unanchored scan.  `pattern[0]` on an
empty pattern is a panic. -/
def match_pattern (fuel : Nat) (input_characters : List Char) (pattern : List RE) :
    DriverResult :=
  match pattern with
  | [] => .panic
  | .StartAnchor :: ps =>
    match _match_pattern fuel input_characters ps 0 [] with
    | none => .fuelOut
    | some r => .res r
  | _ => match_pattern_loop fuel pattern input_characters

mutual

/-- True when no `StartAnchor` occurs anywhere inside the node. -/
def startFree : RE → Bool
  | .StartAnchor => false
  | .CClass ms => startFreeL ms
  | .NCClass ms => startFreeL ms
  | .OneOrMore t => startFreeO t
  | .ZeroOrMore t => startFreeO t
  | .ZeroOrOne t => startFreeO t
  | .Alternation mss => startFreeLL mss
  | _ => true

/-- Value of `startFree` on an optional quantifier target. -/
def startFreeO : Option RE → Bool
  | none => true
  | some r => startFree r

/-- Value of `startFree` on every node of a sequence. -/
def startFreeL : List RE → Bool
  | [] => true
  | r :: rs => startFree r && startFreeL rs

/-- Value of `startFree` on every sequence of a group's alternative list. -/
def startFreeLL : List (List RE) → Bool
  | [] => true
  | m :: ms => startFreeL m && startFreeLL ms

end

/-- Shapes the first node of a successfully parsed pattern can take:
either it contains no `StartAnchor` at all, or it is the `StartAnchor`
itself, or it is a quantifier whose bound target is the `StartAnchor`
(produced when the pattern starts with `^` immediately followed by a
quantifier character). -/
def headStartOk : RE → Bool
  | .StartAnchor => true
  | .OneOrMore (some .StartAnchor) => true
  | .ZeroOrMore (some .StartAnchor) => true
  | .ZeroOrOne (some .StartAnchor) => true
  | r => startFree r

/-- The compiled form of the pattern `(\w+) and \1`. -/
def backrefScenarioPattern : List RE :=
  [RE.Alternation [[RE.OneOrMore (some RE.AlphanumericClass)]],
   RE.Character ' ', RE.Character 'a', RE.Character 'n', RE.Character 'd',
   RE.Character ' ', RE.BackReference 1]

theorem quantRebind_eq_none (r : Option RE) (x : RE)
    (h : ∀ y, r = some y → isQuant y = false) : quantRebind r x = none := by
  cases r with
  | none => rfl
  | some y =>
    have hy := h y rfl
    cases y <;> simp [isQuant] at hy ⊢ <;> rfl

theorem quantRebind_some_isQuant (q x q' : RE) (h : quantRebind (some q) x = some q') :
    isQuant q = true := by
  cases q <;> first | rfl | simp [quantRebind] at h

/-- A quantifier placeholder whose lookahead is not another quantifier
contributes nothing to the post-processed output: the `// do nothing` branch
of `_post_process`. -/
theorem pp_unbound_quant_dropped (q : RE) (rest : List RE)
    (hq : isQuant q = true)
    (hr : ∀ r, rest.head? = some r → isQuant r = false) :
    _post_process (q :: rest) = _post_process rest := by
  have hnone := quantRebind_eq_none rest.head? q hr
  cases q <;> simp [isQuant] at hq <;> simp [_post_process, hnone, isQuant]

/-- When a non-group node is followed by a quantifier placeholder (and the
node after the placeholder is not itself a quantifier), post-processing
replaces the pair by the single rebound quantifier node. -/
theorem pp_quant_binds_prev (x q q' : RE) (rest : List RE)
    (hx : ∀ members, x ≠ RE.Alternation members)
    (hq : quantRebind (some q) x = some q')
    (hr : ∀ r, rest.head? = some r → isQuant r = false) :
    _post_process (x :: q :: rest) = Except.map (fun t => q' :: t) (_post_process rest) := by
  have hdrop := pp_unbound_quant_dropped q rest (quantRebind_some_isQuant q x q' hq) hr
  cases x <;> try (exact absurd rfl (hx _))
  all_goals
    simp only [_post_process, List.head?_cons, hq, hdrop]
  all_goals
    cases hpp : _post_process rest <;> rfl

/-- C1: the claim states that a `ZeroOrMore` node whose skip-first branch
fails with length 0 and whose target accepts the current character consumes
one character and retries on the shortened input, making the recursion
terminate.  The code instead recurses on the unchanged input and pattern, so
the attempt never finishes: for pattern `a*` (compiled to
`[ZeroOrMore (Character 'a')]`) on input `"a"`, `_match_pattern` exhausts any
amount of fuel without producing a result. -/
theorem c1_zero_or_more_never_terminates :
    ∀ fuel current_match_len,
      _match_pattern fuel ['a'] [RE.ZeroOrMore (some (RE.Character 'a'))]
        current_match_len [] = none := by
  intro fuel
  induction fuel with
  | zero => intro m; rfl
  | succ n ih =>
    intro m
    cases n with
    | zero => rfl
    | succ k => exact ih (m + 1)

/-- C2 counterexample: `match_pattern` does not return a value on an empty
compiled pattern sequence; the `pattern[0]` access panics. -/
theorem c2_match_pattern_empty_pattern_panics :
    match_pattern 1 ['a'] [] = DriverResult.panic := rfl

/-- C2 (amended): the core is not panic-free.  `parse` panics on the empty
pattern string (`characters[0]` out of bounds) and on a group alternative
whose contents fail to parse (the `.expect` on a misplaced `$` inside
`($a)`), and `match_pattern` panics on an empty compiled pattern sequence. -/
theorem c2_amended_crash_points :
    parse [] = none ∧
      parse ['(', '$', 'a', ')'] = none ∧
      ∀ fuel input_characters, match_pattern fuel input_characters [] = DriverResult.panic := by
  refine ⟨rfl, ?_, fun fuel input_characters => rfl⟩
  simp [parse, _parse, parseMembers, consNode, splitFirst, splitBar, classBody]

/-- C3 counterexample: a pattern whose first character is `+` does not make
`parse` return an error; the unbound quantifier is silently dropped and the
parse succeeds with an empty node sequence. -/
theorem c3_leading_quantifier_parses :
    parse ['+'] = some (Except.ok []) := by
  simp [parse, _parse, consNode, _post_process, quantRebind, isQuant]

/-- C3 (amended): a quantifier placeholder with no preceding node to bind to
is not an error; the post-processing pass silently drops it (provided the
node after it is not itself a quantifier placeholder), so such patterns
parse successfully without the placeholder. -/
theorem c3_amended_unbound_quantifier_dropped (q : RE) (rest : List RE)
    (hq : isQuant q = true)
    (hr : ∀ r, rest.head? = some r → isQuant r = false) :
    _post_process (q :: rest) = _post_process rest :=
  pp_unbound_quant_dropped q rest hq hr

/-- C3 witness: dropping a leading `+` placeholder in front of a literal. -/
theorem c3_witness :
    isQuant (RE.OneOrMore none) = true ∧
      _post_process [RE.OneOrMore none, RE.Character 'a']
        = _post_process [RE.Character 'a'] :=
  ⟨rfl, c3_amended_unbound_quantifier_dropped (RE.OneOrMore none) [RE.Character 'a'] rfl
    (by intro r h; cases h; rfl)⟩

/-- C4 counterexample: a quantifier placeholder following a Group/Alternation
node is not bound to it; the group is kept and the placeholder dropped, so the
pair is not replaced by a bound quantifier node. -/
theorem c4_group_quantifier_not_bound :
    _post_process [RE.Alternation [[RE.Character 'a']], RE.OneOrMore none]
        = Except.ok [RE.Alternation [[RE.Character 'a']]] ∧
      _post_process [RE.Alternation [[RE.Character 'a']], RE.OneOrMore none]
        ≠ Except.ok [RE.OneOrMore (some (RE.Alternation [[RE.Character 'a']]))] := by
  have h : _post_process [RE.Alternation [[RE.Character 'a']], RE.OneOrMore none]
      = Except.ok [RE.Alternation [[RE.Character 'a']]] := by
    simp [_post_process, ppMembers, quantRebind, isQuant] <;> rfl
  refine ⟨h, ?_⟩
  rw [h]
  simp

/-- C4 (amended): whenever a quantifier placeholder at position `i+1` follows
a node at position `i` that is not a Group/Alternation node (and the node at
`i+2`, if any, is not itself a quantifier placeholder), the quantifier's
target is bound to a copy of the node at `i`, the node at `i` is dropped, and
the pair is replaced by the single bound quantifier node.  A Group/Alternation
node at position `i` is never absorbed this way. -/
theorem c4_amended_quantifier_binds_non_group (x q q' : RE) (rest : List RE)
    (hx : ∀ members, x ≠ RE.Alternation members)
    (hq : quantRebind (some q) x = some q')
    (hr : ∀ r, rest.head? = some r → isQuant r = false) :
    _post_process (x :: q :: rest) = Except.map (fun t => q' :: t) (_post_process rest) :=
  pp_quant_binds_prev x q q' rest hx hq hr

/-- C4 witness: `a?` becomes the single node `ZeroOrOne (Character 'a')`. -/
theorem c4_witness :
    (∀ members, RE.Character 'a' ≠ RE.Alternation members) ∧
      quantRebind (some (RE.ZeroOrOne none)) (RE.Character 'a')
        = some (RE.ZeroOrOne (some (RE.Character 'a'))) ∧
      _post_process [RE.Character 'a', RE.ZeroOrOne none]
        = Except.map (fun t => RE.ZeroOrOne (some (RE.Character 'a')) :: t)
            (_post_process []) :=
  ⟨(fun members h => by cases h), rfl,
    c4_amended_quantifier_binds_non_group (RE.Character 'a') (RE.ZeroOrOne none)
      (RE.ZeroOrOne (some (RE.Character 'a'))) [] (fun members h => by cases h) rfl
      (by intro r h; cases h)⟩

/-- C5 counterexample: a pattern containing `(` with no matching `)` parses
successfully (the group is treated as closed at the end of the pattern), not
as an unterminated-group error. -/
theorem c5_unterminated_group_parses :
    parse ['(', 'a', 'b'] = some (Except.ok [RE.Alternation [[RE.Character 'a', RE.Character 'b']]]) := by
  simp [parse, _parse, parseMembers, consNode, splitFirst, splitBar, _post_process, ppMembers,
    quantRebind, isQuant] <;> rfl

/-- C5 (amended): an unterminated `(` or `[` is not a parse error; the
remaining characters are treated as the group (split on `|`) or class body,
as if the delimiter were closed at the end of the pattern. -/
theorem c5_amended_unterminated_treated_as_closed :
    parse ['[', 'a', 'b'] = some (Except.ok [RE.CClass [RE.Character 'a', RE.Character 'b']]) ∧
      parse ['(', 'a', '|', 'b']
        = some (Except.ok [RE.Alternation [[RE.Character 'a'], [RE.Character 'b']]]) := by
  constructor
  · simp [parse, _parse, parseMembers, consNode, splitFirst, splitBar, classBody,
      _post_process, ppMembers, quantRebind, isQuant] <;> rfl
  · simp [parse, _parse, parseMembers, consNode, splitFirst, splitBar, classBody,
      _post_process, ppMembers, quantRebind, isQuant] <;> rfl

/-- C6: the pattern `(\w+) and \1` compiles to `backrefScenarioPattern`, whose
match against `"cat and cat"` returns length 11 and against `"cat and dog"`
returns 0 (no match). -/
theorem c6_backreference_scenario :
    parse "(\\w+) and \\1".data = some (Except.ok backrefScenarioPattern) ∧
      match_pattern 100 "cat and cat".data backrefScenarioPattern
        = DriverResult.res (Except.ok 11) ∧
      match_pattern 100 "cat and dog".data backrefScenarioPattern
        = DriverResult.res (Except.ok 0) := by
  refine ⟨?_, rfl, rfl⟩
  simp [parse, _parse, parseMembers, consNode, splitFirst, splitBar, classBody,
    _post_process, ppMembers, quantRebind, isQuant, backrefScenarioPattern] <;> rfl

/-- C7: for any character and member list, the positive-class test and the
negative-class test are exact complements whenever the positive test returns
a boolean result (the negative test is computed as its negation, and both
share the same member scan). -/
theorem c7_class_complement (fuel : Nat) (c : Char) (members : List RE) (b : Bool)
    (h : match_single_character (fuel + 1) c (RE.CClass members) = some (Except.ok b)) :
    match_single_character (fuel + 1) c (RE.NCClass members) = some (Except.ok (!b)) := by
  simp only [match_single_character] at h ⊢
  rw [h]

/-- C7 witness: `[a]` versus `[^a]` on character `a`. -/
theorem c7_witness :
    match_single_character 4 'a' (RE.CClass [RE.Character 'a']) = some (Except.ok true) ∧
      match_single_character 4 'a' (RE.NCClass [RE.Character 'a']) = some (Except.ok false) :=
  ⟨rfl, c7_class_complement 3 'a' [RE.Character 'a'] true rfl⟩

/-- C8: with at least one input character remaining, a `BackReference` node
whose 1-based target exceeds the number of accumulated captures evaluates to
the engine error `"Back reference does not exist"`, which is distinct from
the plain non-match result `Ok 0`. -/
theorem c8_dangling_backreference_errors (fuel : Nat) (c : Char) (cs : List Char)
    (target : Nat) (ps : List RE) (current_match_len : Nat)
    (back_references : List (List Char))
    (h1 : 1 ≤ target) (h2 : target < 2 ^ 32)
    (h3 : back_references.length < target) :
    _match_pattern (fuel + 1) (c :: cs) (RE.BackReference target :: ps)
        current_match_len back_references
      = some (Except.error "Back reference does not exist") ∧
      (Except.error "Back reference does not exist" : Except String Nat) ≠ Except.ok 0 := by
  constructor
  · have hidx : (target + (2 ^ 32 - 1)) % 2 ^ 32 = target - 1 := by
      have hsum : target + (2 ^ 32 - 1) = (target - 1) + 2 ^ 32 := by omega
      rw [hsum, Nat.add_mod_right]
      exact Nat.mod_eq_of_lt (by omega)
    have hget : back_references[target - 1]? = none :=
      List.getElem?_eq_none (by omega)
    simp only [_match_pattern, hidx, hget]
  · simp

/-- C8 witness: `\1` with no captures errors immediately. -/
theorem c8_witness :
    (1 ≤ 1 ∧ 1 < 2 ^ 32 ∧ ([] : List (List Char)).length < 1) ∧
      _match_pattern 1 ['a'] [RE.BackReference 1] 0 []
        = some (Except.error "Back reference does not exist") :=
  ⟨⟨Nat.le_refl 1, by norm_num, by simp⟩,
    (c8_dangling_backreference_errors 0 'a' [] 1 [] 0 [] (Nat.le_refl 1) (by norm_num)
      (by simp)).1⟩

/-- C9 counterexample: `parse` succeeds on the pattern `^+` and the resulting
sequence nests `StartAnchor` inside a quantifier's bound target, contradicting
the claim that `StartAnchor` only ever occurs bare at position 0. -/
theorem c9_start_anchor_nested_in_quantifier :
    parse ['^', '+'] = some (Except.ok [RE.OneOrMore (some RE.StartAnchor)]) := by
  simp [parse, _parse, consNode, _post_process, quantRebind, isQuant]
  rfl

/-- C10: the escape `\0` parses to `BackReference 0`, and evaluating that node
with any capture list (of `u32`-representable length) and a non-empty input
wraps the index computation `0 - 1` around the unsigned 32-bit range, so the
capture lookup fails and the node always yields the back-reference error. -/
theorem c10_backreference_zero_always_errors :
    parse ['\\', '0'] = some (Except.ok [RE.BackReference 0]) ∧
      ∀ fuel c cs ps current_match_len (back_references : List (List Char)),
        back_references.length < 2 ^ 32 →
        _match_pattern (fuel + 1) (c :: cs) (RE.BackReference 0 :: ps)
            current_match_len back_references
          = some (Except.error "Back reference does not exist") := by
  constructor
  · simp [parse, _parse, consNode, _post_process, quantRebind, isQuant]
    rfl
  · intro fuel c cs ps current_match_len back_references hlen
    have hidx : (0 + (2 ^ 32 - 1)) % 2 ^ 32 = 2 ^ 32 - 1 := by
      rw [Nat.zero_add]
      exact Nat.mod_eq_of_lt (by norm_num)
    have hget : back_references[2 ^ 32 - 1]? = none :=
      List.getElem?_eq_none (by omega)
    simp only [_match_pattern, hidx, hget]

/-- C10 witness: `\0` errors even with a capture available. -/
theorem c10_witness :
    ([['x']] : List (List Char)).length < 2 ^ 32 ∧
      _match_pattern 1 ['a'] [RE.BackReference 0] 0 [['x']]
        = some (Except.error "Back reference does not exist") :=
  ⟨by norm_num,
    c10_backreference_zero_always_errors.2 0 'a' [] [] 0 [['x']] (by norm_num)⟩

theorem consNode_ok_iff (x : RE) (o : Option (Except String (List RE))) (nodes : List RE) :
    consNode x o = some (Except.ok nodes) ↔
      ∃ rest, o = some (Except.ok rest) ∧ nodes = x :: rest := by
  cases o with
  | none => simp [consNode]
  | some r =>
    cases r with
    | error e => simp [consNode]
    | ok ns =>
      constructor
      · intro h
        refine ⟨ns, rfl, ?_⟩
        cases h
        rfl
      · rintro ⟨rest, hr, rfl⟩
        cases hr
        rfl

/-- The recursive parser never emits a `StartAnchor`: `_parse` has no arm
producing one (a literal `^` inside the pattern body becomes `Character '^'`,
and `[^` only selects the negated class constructor). -/
theorem _parse_startFree :
    (∀ cs, ∀ nodes, _parse cs = some (Except.ok nodes) → startFreeL nodes = true) ∧
      ∀ mss, ∀ out, parseMembers mss = some out → startFreeLL out = true := by
  apply _parse.mutual_induct
    (fun cs => ∀ nodes, _parse cs = some (Except.ok nodes) → startFreeL nodes = true)
    (fun mss => ∀ out, parseMembers mss = some out → startFreeLL out = true)
  all_goals intros
  all_goals subst_vars
  all_goals try simp_all [_parse, parseMembers, consNode_ok_iff, startFree, startFreeL, startFreeLL,
    startFreeO]
  all_goals rename_i ha
  all_goals first
    | (obtain ⟨restn, hp, rfl⟩ := ha
       simp_all [startFreeL, startFree, startFreeO])
    | (subst ha
       first
         | simp_all [startFreeL, startFree, startFreeLL, startFreeO]
         | (split <;> simp_all [startFreeL, startFree]))
  all_goals split <;> simp_all [startFree, startFreeL]

theorem exceptBind_ok {a b : Type} (o : Except String a) (f : a → Except String b) (v : b)
    (h : (o >>= f) = Except.ok v) : ∃ x, o = Except.ok x ∧ f x = Except.ok v := by
  cases o with
  | error e => exact absurd h (by simp [Bind.bind, Except.bind])
  | ok x => exact ⟨x, rfl, h⟩

theorem pp_cons_rebind (x q : RE) (rest : List RE)
    (hx : ∀ members, x ≠ RE.Alternation members)
    (hq : quantRebind rest.head? x = some q) :
    _post_process (x :: rest) =
      (do
        let t ← _post_process rest
        Except.ok (q :: t)) := by
  cases x <;> try (exact absurd rfl (hx _))
  all_goals simp only [_post_process, hq]

theorem pp_cons_skip (x : RE) (rest : List RE)
    (hnone : quantRebind rest.head? x = none) (hq : isQuant x = true) :
    _post_process (x :: rest) = _post_process rest := by
  cases x <;> simp [isQuant] at hq <;> simp [_post_process, hnone, isQuant]

theorem quantRebind_startFree (lh : Option RE) (x q : RE)
    (h : quantRebind lh x = some q) (hx : startFree x = true) : startFree q = true := by
  cases lh with
  | none => simp [quantRebind] at h
  | some y =>
    cases y <;> first
      | (simp only [quantRebind, Option.some.injEq] at h
         subst h
         simp [startFree, startFreeO, hx])
      | simp [quantRebind] at h

/-- Post-processing preserves freedom from `StartAnchor`: every node of the
output is built from input nodes (possibly rebound into a quantifier). -/
theorem _post_process_startFree :
    (∀ l, startFreeL l = true → ∀ out, _post_process l = Except.ok out → startFreeL out = true) ∧
      ∀ mss, startFreeLL mss = true → ∀ out, ppMembers mss = Except.ok out →
        startFreeLL out = true := by
  apply _post_process.mutual_induct
    (fun l => startFreeL l = true → ∀ out, _post_process l = Except.ok out → startFreeL out = true)
    (fun mss => startFreeLL mss = true → ∀ out, ppMembers mss = Except.ok out →
      startFreeLL out = true)
  all_goals intros
  all_goals subst_vars
  all_goals try simp_all [_post_process, ppMembers, startFree, startFreeL, startFreeLL, startFreeO]
  case case2 ms rest out ih2 ih1 hfree hpp =>
    obtain ⟨hfm, hfr⟩ := hfree
    obtain ⟨msOut, hms, h2⟩ := exceptBind_ok _ _ _ hpp
    obtain ⟨t, ht, h3⟩ := exceptBind_ok _ _ _ h2
    cases h3
    simp only [startFreeL, startFree, Bool.and_eq_true]
    exact ⟨ih2 msOut hms, ih1 t ht⟩
  case case3 x rest q out hnotAlt hq ih1 hfree hpp =>
    obtain ⟨hfx, hfr⟩ := hfree
    rw [pp_cons_rebind x q rest hnotAlt hq] at hpp
    obtain ⟨t, ht, h2⟩ := exceptBind_ok _ _ _ hpp
    cases h2
    simp only [startFreeL, Bool.and_eq_true]
    exact ⟨quantRebind_startFree _ _ _ hq hfx, ih1 t ht⟩
  case case4 x rest out hnotAlt hnone hq ih1 hfree hpp =>
    obtain ⟨hfx, hfr⟩ := hfree
    rw [pp_cons_skip x rest hnone hq] at hpp
    exact ih1 out hpp
  case case6 rest ms out hall hrebind hq ih1 hfree hpp =>
    obtain ⟨hfm, hfr⟩ := hfree
    rw [if_neg (by push_neg; intro x hx; simp [hall x hx])] at hpp
    obtain ⟨t, ht, h2⟩ := exceptBind_ok _ _ _ hpp
    cases h2
    simp only [startFreeL, startFree, Bool.and_eq_true]
    exact ⟨hfm, ih1 t ht⟩
  case case8 rest ms out hall hrebind hq ih1 hfree hpp =>
    obtain ⟨hfm, hfr⟩ := hfree
    rw [if_neg (by push_neg; intro x hx; simp [hall x hx])] at hpp
    obtain ⟨t, ht, h2⟩ := exceptBind_ok _ _ _ hpp
    cases h2
    simp only [startFreeL, startFree, Bool.and_eq_true]
    exact ⟨hfm, ih1 t ht⟩
  case case9 x rest out hnotAlt hnone hq hnc hnnc ih1 hfree hpp =>
    obtain ⟨hfx, hfr⟩ := hfree
    obtain ⟨t, ht, h2⟩ := exceptBind_ok _ _ _ hpp
    cases h2
    simp only [startFreeL, Bool.and_eq_true]
    exact ⟨hfx, ih1 t ht⟩
  case case11 m ms out ih2 ih1 hfree hpp =>
    obtain ⟨hfm, hfms⟩ := hfree
    obtain ⟨mOut, hm, h2⟩ := exceptBind_ok _ _ _ hpp
    obtain ⟨msOut, hms, h3⟩ := exceptBind_ok _ _ _ h2
    cases h3
    simp only [startFreeLL, Bool.and_eq_true]
    exact ⟨ih2 mOut hm, ih1 msOut hms⟩

theorem startFree_headStartOk (r : RE) (h : startFree r = true) : headStartOk r = true := by
  unfold headStartOk
  split
  · rfl
  · rfl
  · rfl
  · rfl
  · exact h

theorem startFreeL_head_tail (l : List RE) (h : startFreeL l = true) :
    (∀ hd, l.head? = some hd → startFree hd = true) ∧ startFreeL l.tail = true := by
  cases l with
  | nil => exact ⟨(fun hd h' => by cases h'), rfl⟩
  | cons r rs =>
    simp only [startFreeL, Bool.and_eq_true] at h
    exact ⟨(fun hd h' => by cases h'; exact h.1), h.2⟩

theorem quantRebind_start_headOk (lh : Option RE) (q : RE)
    (h : quantRebind lh RE.StartAnchor = some q) : headStartOk q = true := by
  cases lh with
  | none => simp [quantRebind] at h
  | some y =>
    cases y <;> first
      | (simp only [quantRebind, Option.some.injEq] at h
         subst h
         rfl)
      | simp [quantRebind] at h

theorem pp_start_anchor_head (nodes out : List RE)
    (hfree : startFreeL nodes = true)
    (h : _post_process (RE.StartAnchor :: nodes) = Except.ok out) :
    ∃ hd t, out = hd :: t ∧ headStartOk hd = true ∧ startFreeL t = true := by
  cases hq : quantRebind nodes.head? RE.StartAnchor with
  | some q =>
    rw [pp_cons_rebind RE.StartAnchor q nodes (fun members h' => by cases h') hq] at h
    obtain ⟨t, ht, h2⟩ := exceptBind_ok _ _ _ h
    cases h2
    exact ⟨q, t, rfl, quantRebind_start_headOk _ _ hq,
      _post_process_startFree.1 nodes hfree t ht⟩
  | none =>
    simp only [_post_process, hq] at h
    obtain ⟨t, ht, h2⟩ := exceptBind_ok _ _ _ h
    cases h2
    exact ⟨RE.StartAnchor, t, rfl, rfl,
      _post_process_startFree.1 nodes hfree t ht⟩

/-- C9 (amended): on every successfully parsed pattern, `StartAnchor` is
confined to position 0 of the top-level sequence, where it appears either
bare or as the bound target of a quantifier node (the `^+`/`^*`/`^?` case);
every later top-level node, and everything nested below it (group
alternatives, class member lists, quantifier targets), is free of
`StartAnchor`. -/
theorem c9_amended_start_anchor_position (cs : List Char) (out : List RE)
    (h : parse cs = some (Except.ok out)) :
    (∀ hd, out.head? = some hd → headStartOk hd = true) ∧ startFreeL out.tail = true := by
  unfold parse at h
  cases cs with
  | nil => cases h
  | cons c rest =>
    by_cases hc : c = '^'
    · simp only [if_pos hc] at h
      rcases hp : _parse rest with _ | r
      · rw [hp] at h; cases h
      · rcases r with e | nodes
        · rw [hp] at h; cases h
        · rw [hp] at h
          simp only [List.singleton_append] at h
          rcases hq : _post_process (RE.StartAnchor :: nodes) with e | o
          · rw [hq] at h; cases h
          · rw [hq] at h
            simp only [Option.some.injEq, Except.ok.injEq] at h
            subst h
            have hfree := _parse_startFree.1 _ _ hp
            obtain ⟨hd, t, rfl, hok, hfl⟩ := pp_start_anchor_head nodes o hfree hq
            refine ⟨?_, ?_⟩
            · intro hd' h'
              simp only [List.head?_cons, Option.some.injEq] at h'
              subst h'
              exact hok
            · simpa using hfl
    · simp only [if_neg hc] at h
      rcases hp : _parse (c :: rest) with _ | r
      · rw [hp] at h; cases h
      · rcases r with e | nodes
        · rw [hp] at h; cases h
        · rw [hp] at h
          simp only [List.nil_append] at h
          rcases hq : _post_process nodes with e | o
          · rw [hq] at h; cases h
          · rw [hq] at h
            simp only [Option.some.injEq, Except.ok.injEq] at h
            subst h
            have hfree := _parse_startFree.1 _ _ hp
            have hout := _post_process_startFree.1 nodes hfree o hq
            obtain ⟨h1, h2⟩ := startFreeL_head_tail o hout
            exact ⟨fun hd h' => startFree_headStartOk hd (h1 hd h'), h2⟩

/-- C9 witness: the anchored pattern `^a`. -/
theorem c9_witness :
    parse ['^', 'a'] = some (Except.ok [RE.StartAnchor, RE.Character 'a']) ∧
      (∀ hd, ([RE.StartAnchor, RE.Character 'a'] : List RE).head? = some hd →
        headStartOk hd = true) ∧
      startFreeL ([RE.StartAnchor, RE.Character 'a'] : List RE).tail = true := by
  have hp : parse ['^', 'a'] = some (Except.ok [RE.StartAnchor, RE.Character 'a']) := by
    simp [parse, _parse, consNode, _post_process, quantRebind, isQuant] <;> rfl
  exact ⟨hp, (c9_amended_start_anchor_position _ _ hp).1,
    (c9_amended_start_anchor_position _ _ hp).2⟩
